import Mathlib

/-!
Verification of the binschema coder state machine, encoder, decoder and
serde adapter, shallowly embedded from the Rust sources
(src/schema.rs, src/coder/coder.rs, src/encoder_.rs, src/decoder.rs,
src/serde.rs).  Stacks are modelled as Lean lists whose head is the top
of the stack (the last element of the Rust `Vec`).
-/

namespace Binschema

/-- Scalar data types, from `ScalarType` in src/schema.rs. -/
inductive ScalarType
  | u8 | u16 | u32 | u64 | u128
  | i8 | i16 | i32 | i64 | i128
  | f32 | f64 | char | bool
deriving DecidableEq, Repr

/-- Schemas, from `Schema` in src/schema.rs.  `SeqSchema { len, inner }` is
inlined as the two arguments of `seq`; `StructSchemaField` and
`EnumSchemaVariant` (a name paired with an inner schema) are inlined as
`String × Schema` pairs. -/
inductive Schema
  | scalar (t : ScalarType)
  | str
  | bytes
  | unit
  | option (inner : Schema)
  | seq (len : Option Nat) (inner : Schema)
  | tuple (inners : List Schema)
  | struct (fields : List (String × Schema))
  | enum (variants : List (String × Schema))
  | recurse (n : Nat)
deriving Repr

mutual

/-- Structural equality of schemas, the derived `PartialEq` of the Rust
`Schema` type (used by the `validate_need_eq` / `validate_need_encode_eq`
macros via `s.schema == &got`). -/
def Schema.beq : Schema → Schema → Bool
  | .scalar a, .scalar b => a == b
  | .str, .str => true
  | .bytes, .bytes => true
  | .unit, .unit => true
  | .option a, .option b => Schema.beq a b
  | .seq l1 i1, .seq l2 i2 => l1 == l2 && Schema.beq i1 i2
  | .tuple xs, .tuple ys => Schema.beqList xs ys
  | .struct xs, .struct ys => Schema.beqFields xs ys
  | .enum xs, .enum ys => Schema.beqFields xs ys
  | .recurse a, .recurse b => a == b
  | _, _ => false

def Schema.beqList : List Schema → List Schema → Bool
  | [], [] => true
  | x :: xs, y :: ys => Schema.beq x y && Schema.beqList xs ys
  | _, _ => false

def Schema.beqFields : List (String × Schema) → List (String × Schema) → Bool
  | [], [] => true
  | (n1, s1) :: xs, (n2, s2) :: ys =>
      n1 == n2 && Schema.beq s1 s2 && Schema.beqFields xs ys
  | _, _ => false

end

/-- Whether a schema node is a `Recurse` back-edge. -/
def Schema.isRecurse : Schema → Bool
  | .recurse _ => true
  | _ => false

/-- Kinds of error produced by the coder, encoder and decoder.  The Rust
code surfaces all of them as `std::io::Error` values distinguished only by
their message text; each `bail!` site is classified here by the prefix of
the message it formats: "schema non-comformance" (sic), "API usage error",
"invalid schema", "malformed data", "platform limits or malformed data".
`panicUnreachable` models the `unreachable!()` arms, and `endOfInput`
models a failed `read_exact` on the byte source. -/
inductive ErrKind
  | apiUsage
  | schemaNonConformance
  | invalidSchema
  | malformedData
  | platformLimits
  | panicUnreachable
  | endOfInput
  | otherErr
deriving DecidableEq, Repr

/-- Decidable test that an `Except` result is a success. -/
def resOk {α : Type} : Except ErrKind α → Bool
  | .ok _ => true
  | .error _ => false

/-- Resolution of `Recurse` back-edges, from the `while let` loop shared by
`push_need` (src/coder/coder.rs) and `push_need_encode` (src/encoder_.rs).
`ctx` lists the schemas of the frames strictly below the position being
pushed, nearest frame first; in the Rust code these are
`stack[i-1].schema, ..., stack[0].schema` for the loop counter `i`, so
`Recurse n` reads `stack[i - n]` — entry `n - 1` of `ctx` (an error if
`i.checked_sub(n)` underflows, i.e. `n > ctx.length`, or if `n = 0`) —
and continues resolving it against the entries below it (`ctx.drop n`). -/
def resolveRecurse (ctx : List Schema) (s : Schema) : Except ErrKind Schema :=
  match s with
  | .recurse n =>
    if n = 0 then .error .invalidSchema
    else if hlt : n - 1 < ctx.length then
      resolveRecurse (ctx.drop n) (ctx.get ⟨n - 1, hlt⟩)
    else .error .invalidSchema
  | .scalar t => .ok (.scalar t)
  | .str => .ok .str
  | .bytes => .ok .bytes
  | .unit => .ok .unit
  | .option inner => .ok (.option inner)
  | .seq len inner => .ok (.seq len inner)
  | .tuple inners => .ok (.tuple inners)
  | .struct fields => .ok (.struct fields)
  | .enum variants => .ok (.enum variants)
termination_by ctx.length
decreasing_by
  simp_wf
  omega

/-- Transitive specification of recurse resolution: `ResolvesTo ctx s r`
holds when following consecutive `Recurse` edges from `s`, each counted
from the position of the frame it was found in, reaches the non-Recurse
schema `r`. -/
inductive ResolvesTo : List Schema → Schema → Schema → Prop
  | done (ctx : List Schema) (s : Schema) : s.isRecurse = false → ResolvesTo ctx s s
  | step (ctx : List Schema) (n : Nat) (s r : Schema) :
      0 < n → ctx.get? (n - 1) = some s → ResolvesTo (ctx.drop n) s r →
      ResolvesTo ctx (.recurse n) r

theorem resolveRecurse_nonRecurse (ctx : List Schema) (s : Schema)
    (h : s.isRecurse = false) : resolveRecurse ctx s = .ok s := by
  cases s <;> simp_all [resolveRecurse, Schema.isRecurse]

theorem resolveRecurse_ok_not_recurse {ctx : List Schema} {s r : Schema}
    (h : resolveRecurse ctx s = .ok r) : r.isRecurse = false := by
  induction ctx, s using resolveRecurse.induct with
  | case1 ctx =>
    simp [resolveRecurse] at h
  | case2 ctx n hn hlt ih =>
    rw [resolveRecurse] at h
    simp [hn, hlt] at h
    exact ih h
  | case3 ctx n hn hnlt =>
    rw [resolveRecurse] at h
    simp [hn, hnlt] at h
  | _ =>
    simp [resolveRecurse] at h
    subst h
    rfl

theorem resolveRecurse_ok_resolvesTo {ctx : List Schema} {s r : Schema}
    (h : resolveRecurse ctx s = .ok r) : ResolvesTo ctx s r := by
  induction ctx, s using resolveRecurse.induct with
  | case1 ctx =>
    simp [resolveRecurse] at h
  | case2 ctx n hn hlt ih =>
    rw [resolveRecurse] at h
    simp [hn, hlt] at h
    refine ResolvesTo.step ctx n _ r (Nat.pos_of_ne_zero hn) ?_ (ih h)
    simp [List.get?_eq_get hlt]
  | case3 ctx n hn hnlt =>
    rw [resolveRecurse] at h
    simp [hn, hnlt] at h
  | _ =>
    simp [resolveRecurse] at h
    subst h
    exact ResolvesTo.done _ _ rfl

/-- Per-frame API state of the coder, from `ApiState` in
src/coder/coder.rs. -/
inductive ApiState
  | need
  | autoFinish
  | seq (len : Nat) (next : Nat)
  | tuple (next : Nat)
  | struct (next : Nat)
  | enum
deriving DecidableEq, Repr

/-- One stack entry of the coder, from `StackFrame` in src/coder/coder.rs:
a borrowed schema paired with an API state. -/
structure StackFrame where
  schema : Schema
  api_state : ApiState
deriving Repr

/-- The coder state machine, from `CoderState` in src/coder/coder.rs.  The
list head is the top of the stack. -/
structure CoderState where
  stack : List StackFrame
deriving Repr

/-- `CoderState::new`: push the root schema (unresolved) as a `Need`
frame. -/
def CoderState.new (schema : Schema) : CoderState :=
  ⟨[{ schema := schema, api_state := .need }]⟩

/-- `CoderState::is_finished`: the stack is empty. -/
def CoderState.is_finished (st : CoderState) : Bool :=
  st.stack.isEmpty

/-- Error produced by the `validate_top!` macro in src/coder/coder.rs when
the top frame does not match the operation: `Need` frames report schema
non-conformance, in-progress frames report API usage errors, and an
`AutoFinish` frame on top hits `unreachable!()`. -/
def frameErr (f : StackFrame) : ErrKind :=
  match f.api_state with
  | .autoFinish => .panicUnreachable
  | .need => .schemaNonConformance
  | .seq _ _ => .apiUsage
  | .tuple _ => .apiUsage
  | .struct _ => .apiUsage
  | .enum => .apiUsage

/-- `CoderState::push_need` (src/coder/coder.rs): resolve `Recurse`
back-edges against the live stack and push the result as a `Need` frame. -/
def CoderState.push_need (st : CoderState) (s : Schema) : Except ErrKind CoderState :=
  match resolveRecurse (st.stack.map StackFrame.schema) s with
  | .error e => .error e
  | .ok r => .ok ⟨{ schema := r, api_state := .need } :: st.stack⟩

/-- The `while` loop of `CoderState::pop`: repeatedly pop `AutoFinish`
frames off the top of the stack. -/
def popAutoFinish : List StackFrame → List StackFrame
  | [] => []
  | f :: rest => if f.api_state = .autoFinish then popAutoFinish rest else f :: rest

/-- `CoderState::pop` (src/coder/coder.rs): pop the top frame, then
repeatedly pop any `AutoFinish` frames now on top. -/
def CoderState.pop (st : CoderState) : CoderState :=
  ⟨popAutoFinish st.stack.tail⟩

/-- The seventeen instantiations of the `code_simple!` macro in
src/coder/coder.rs (`code_u8` .. `code_bytes`). -/
inductive CodeTy
  | u8 | u16 | u32 | u64 | u128
  | i8 | i16 | i32 | i64 | i128
  | f32 | f64 | char | bool
  | unit | str | bytes
deriving DecidableEq, Repr

/-- The schema literal (`schema!(..)`) each `code_simple!` method
validates against. -/
def CodeTy.toSchema : CodeTy → Schema
  | .u8 => .scalar .u8
  | .u16 => .scalar .u16
  | .u32 => .scalar .u32
  | .u64 => .scalar .u64
  | .u128 => .scalar .u128
  | .i8 => .scalar .i8
  | .i16 => .scalar .i16
  | .i32 => .scalar .i32
  | .i64 => .scalar .i64
  | .i128 => .scalar .i128
  | .f32 => .scalar .f32
  | .f64 => .scalar .f64
  | .char => .scalar .char
  | .bool => .scalar .bool
  | .unit => .unit
  | .str => .str
  | .bytes => .bytes

/-- Body of the `code_simple!` macro: `validate_need_eq!` against `got`,
then pop.  Errors leave the state unchanged (the Rust methods mutate
`self` in place and have not yet mutated anything when they bail). -/
def CoderState.code_simple (st : CoderState) (got : Schema) :
    Except ErrKind Unit × CoderState :=
  match st.stack with
  | [] => (.error .apiUsage, st)
  | top :: _ =>
    if top.api_state = .need && Schema.beq top.schema got then
      (.ok (), st.pop)
    else
      (.error (frameErr top), st)

/-- `CoderState::begin_tuple`. -/
def CoderState.begin_tuple (st : CoderState) : Except ErrKind Unit × CoderState :=
  match st.stack with
  | [] => (.error .apiUsage, st)
  | top :: rest =>
    match top.api_state, top.schema with
    | .need, .tuple _ => (.ok (), ⟨{ top with api_state := .tuple 0 } :: rest⟩)
    | _, _ => (.error (frameErr top), st)

/-- `CoderState::begin_tuple_elem`.  Note the Rust code increments `next`
before calling `push_need`, so a resolution failure leaves `next`
incremented. -/
def CoderState.begin_tuple_elem (st : CoderState) : Except ErrKind Unit × CoderState :=
  match st.stack with
  | [] => (.error .apiUsage, st)
  | top :: rest =>
    match top.api_state with
    | .tuple next =>
      match top.schema with
      | .tuple inners =>
        match inners.get? next with
        | none => (.error .schemaNonConformance, st)
        | some inner =>
          let st1 : CoderState := ⟨{ top with api_state := .tuple (next + 1) } :: rest⟩
          match st1.push_need inner with
          | .error e => (.error e, st1)
          | .ok st2 => (.ok (), st2)
      | _ => (.error .panicUnreachable, st)
    | _ => (.error (frameErr top), st)

/-- `CoderState::finish_tuple`. -/
def CoderState.finish_tuple (st : CoderState) : Except ErrKind Unit × CoderState :=
  match st.stack with
  | [] => (.error .apiUsage, st)
  | top :: _ =>
    match top.api_state with
    | .tuple next =>
      match top.schema with
      | .tuple inners =>
        if inners.length = next then (.ok (), st.pop)
        else (.error .schemaNonConformance, st)
      | _ => (.error .panicUnreachable, st)
    | _ => (.error (frameErr top), st)

/-- `CoderState::begin_struct`. -/
def CoderState.begin_struct (st : CoderState) : Except ErrKind Unit × CoderState :=
  match st.stack with
  | [] => (.error .apiUsage, st)
  | top :: rest =>
    match top.api_state, top.schema with
    | .need, .struct _ => (.ok (), ⟨{ top with api_state := .struct 0 } :: rest⟩)
    | _, _ => (.error (frameErr top), st)

/-- `CoderState::begin_struct_field`: the supplied name must equal the
name of the field at position `next`. -/
def CoderState.begin_struct_field (st : CoderState) (name : String) :
    Except ErrKind Unit × CoderState :=
  match st.stack with
  | [] => (.error .apiUsage, st)
  | top :: rest =>
    match top.api_state with
    | .struct next =>
      match top.schema with
      | .struct fields =>
        match fields.get? next with
        | none => (.error .schemaNonConformance, st)
        | some field =>
          if field.1 == name then
            let st1 : CoderState := ⟨{ top with api_state := .struct (next + 1) } :: rest⟩
            match st1.push_need field.2 with
            | .error e => (.error e, st1)
            | .ok st2 => (.ok (), st2)
          else (.error .schemaNonConformance, st)
      | _ => (.error .panicUnreachable, st)
    | _ => (.error (frameErr top), st)

/-- `CoderState::finish_struct`. -/
def CoderState.finish_struct (st : CoderState) : Except ErrKind Unit × CoderState :=
  match st.stack with
  | [] => (.error .apiUsage, st)
  | top :: _ =>
    match top.api_state with
    | .struct next =>
      match top.schema with
      | .struct fields =>
        if fields.length = next then (.ok (), st.pop)
        else (.error .schemaNonConformance, st)
      | _ => (.error .panicUnreachable, st)
    | _ => (.error (frameErr top), st)

/-- `CoderState::begin_enum` (its `usize` return value, the number of
variants, is dropped here). -/
def CoderState.begin_enum (st : CoderState) : Except ErrKind Unit × CoderState :=
  match st.stack with
  | [] => (.error .apiUsage, st)
  | top :: rest =>
    match top.api_state, top.schema with
    | .need, .enum _ => (.ok (), ⟨{ top with api_state := .enum } :: rest⟩)
    | _, _ => (.error (frameErr top), st)

/-- `CoderState::begin_enum_variant`: validate the ordinal and the name,
then mark the enum frame `AutoFinish` and push the variant's inner schema.
Note the Rust code marks the frame `AutoFinish` before calling
`push_need`, so a resolution failure leaves the mark behind. -/
def CoderState.begin_enum_variant (st : CoderState) (variant_ord : Nat)
    (variant_name : String) : Except ErrKind Unit × CoderState :=
  match st.stack with
  | [] => (.error .apiUsage, st)
  | top :: rest =>
    match top.api_state with
    | .enum =>
      match top.schema with
      | .enum variants =>
        match variants.get? variant_ord with
        | none => (.error .schemaNonConformance, st)
        | some v =>
          if variant_name == v.1 then
            let st1 : CoderState := ⟨{ top with api_state := .autoFinish } :: rest⟩
            match st1.push_need v.2 with
            | .error e => (.error e, st1)
            | .ok st2 => (.ok (), st2)
          else (.error .schemaNonConformance, st)
      | _ => (.error .panicUnreachable, st)
    | _ => (.error (frameErr top), st)

/-- The public operations of `CoderState` (src/coder/coder.rs). -/
inductive CoderOp
  | code (t : CodeTy)
  | begin_tuple
  | begin_tuple_elem
  | finish_tuple
  | begin_struct
  | begin_struct_field (name : String)
  | finish_struct
  | begin_enum
  | begin_enum_variant (variant_ord : Nat) (variant_name : String)
deriving Repr

/-- Dispatch a coder operation.  The second component is the state after
the call, mirroring Rust's in-place mutation of `self` (also on error). -/
def applyCoder (st : CoderState) : CoderOp → Except ErrKind Unit × CoderState
  | .code t => st.code_simple t.toSchema
  | .begin_tuple => st.begin_tuple
  | .begin_tuple_elem => st.begin_tuple_elem
  | .finish_tuple => st.finish_tuple
  | .begin_struct => st.begin_struct
  | .begin_struct_field name => st.begin_struct_field name
  | .finish_struct => st.finish_struct
  | .begin_enum => st.begin_enum
  | .begin_enum_variant ord name => st.begin_enum_variant ord name

/-- States reachable from a freshly constructed coder over `root`,
including states left behind by failed operations. -/
inductive Reachable (root : Schema) : CoderState → Prop
  | init : Reachable root (CoderState.new root)
  | step (st st2 : CoderState) (op : CoderOp) (r : Except ErrKind Unit) :
      Reachable root st → applyCoder st op = (r, st2) → Reachable root st2

/-- Invariant: no frame on the coder stack carries a `Recurse` schema. -/
def NoRecurseFrames (st : CoderState) : Prop :=
  ∀ f ∈ st.stack, f.schema.isRecurse = false

theorem popAutoFinish_mem {f : StackFrame} :
    ∀ {l : List StackFrame}, f ∈ popAutoFinish l → f ∈ l := by
  intro l
  induction l with
  | nil => simp [popAutoFinish]
  | cons g rest ih =>
    simp only [popAutoFinish]
    split
    · intro h
      exact List.mem_cons_of_mem g (ih h)
    · exact id

theorem noRecurse_pop {st : CoderState} (h : NoRecurseFrames st) :
    NoRecurseFrames st.pop := by
  intro f hf
  have hmem : f ∈ st.stack.tail := popAutoFinish_mem hf
  exact h f (List.mem_of_mem_tail hmem)

theorem noRecurse_push_need {st st2 : CoderState} {s : Schema}
    (hinv : NoRecurseFrames st) (h : st.push_need s = .ok st2) :
    NoRecurseFrames st2 := by
  cases hres : resolveRecurse (st.stack.map StackFrame.schema) s with
  | error e => simp [CoderState.push_need, hres] at h
  | ok rr =>
    simp only [CoderState.push_need, hres] at h
    cases h
    intro f hf
    rcases List.mem_cons.mp hf with rfl | hmem
    · exact resolveRecurse_ok_not_recurse hres
    · exact hinv f hmem

theorem noRecurse_retop {top : StackFrame} {rest : List StackFrame} {a : ApiState}
    (hinv : NoRecurseFrames ⟨top :: rest⟩) :
    NoRecurseFrames ⟨{ top with api_state := a } :: rest⟩ := by
  intro f hf
  rcases List.mem_cons.mp hf with rfl | hmem
  · exact hinv top (List.mem_cons_self _ _)
  · exact hinv f (List.mem_cons_of_mem _ hmem)

theorem applyCoder_preserves (st : CoderState) (op : CoderOp)
    (hinv : NoRecurseFrames st) : NoRecurseFrames (applyCoder st op).2 := by
  obtain ⟨stack⟩ := st
  cases stack with
  | nil =>
    cases op <;>
      simp only [applyCoder, CoderState.code_simple, CoderState.begin_tuple,
        CoderState.begin_tuple_elem, CoderState.finish_tuple, CoderState.begin_struct,
        CoderState.begin_struct_field, CoderState.finish_struct, CoderState.begin_enum,
        CoderState.begin_enum_variant] <;>
      exact hinv
  | cons top rest =>
    cases op <;>
      simp only [applyCoder, CoderState.code_simple, CoderState.begin_tuple,
        CoderState.begin_tuple_elem, CoderState.finish_tuple, CoderState.begin_struct,
        CoderState.begin_struct_field, CoderState.finish_struct, CoderState.begin_enum,
        CoderState.begin_enum_variant] <;>
      repeat
        first
        | exact hinv
        | exact noRecurse_pop hinv
        | exact noRecurse_retop hinv
        | (rename_i hok; exact noRecurse_push_need (noRecurse_retop hinv) hok)
        | split

/-- Root invariant: if the root schema is not itself a `Recurse` node, then
every reachable coder state has no `Recurse` frame on its stack. -/
theorem reachable_noRecurse {root : Schema} (hroot : root.isRecurse = false)
    {st : CoderState} (h : Reachable root st) : NoRecurseFrames st := by
  induction h with
  | init =>
    intro f hf
    simp only [CoderState.new, List.mem_singleton] at hf
    subst hf
    exact hroot
  | step st st2 op r _ happ ih =>
    have := applyCoder_preserves st op ih
    rw [happ] at this
    exact this

/-- Modelled from the spec: the `var_len` module (`mod var_len;` in
src/lib.rs) is absent from the sources; §4.1 specifies that unsigned
integers use a continuation-bit encoding, seven payload bits per byte,
high bit set on all non-terminal bytes, least-significant group first. -/
def write_var_len_uint (n : Nat) : List Nat :=
  if h : n < 128 then [n]
  else (n % 128 + 128) :: write_var_len_uint (n / 128)
decreasing_by
  exact Nat.div_lt_self (by omega) (by omega)

/-- Modelled from the spec: §4.1 maps a signed integer by zig-zag,
`x → (x << 1) ^ (x >> (width−1))`, onto a non-negative value; for an
in-range two's-complement `x` this is `2x` for `x ≥ 0` and `-2x - 1` for
`x < 0`. -/
def zigzag (x : Int) : Nat :=
  if 0 ≤ x then 2 * x.toNat else 2 * (-x).toNat - 1

/-- Modelled from the spec: signed integers are zig-zag mapped and then
encoded like unsigned ones. -/
def write_var_len_sint (x : Int) : List Nat :=
  write_var_len_uint (zigzag x)

/-- Little-endian bytes of `x`, `count` bytes long (the `to_le_bytes`
calls of the encoder). -/
def write_le_bytes : Nat → Nat → List Nat
  | 0, _ => []
  | count + 1, x => x % 256 :: write_le_bytes count (x / 256)

/-- Little-endian two's-complement bytes of the signed `x`, `count` bytes
long (the `to_le_bytes` calls on `i8` / `i16`). -/
def int_le_bytes (count : Nat) (x : Int) : List Nat :=
  write_le_bytes count (x % (2 ^ (8 * count))).toNat

/-- Modelled from the spec: the ordinal-in-N helper writes an integer in
`[0, N)` using the minimum whole number of bytes, `ceil(log256(N))` for
`N ≥ 2` and zero bytes for `N ≤ 1`. -/
def ord_num_bytes (n : Nat) : Nat :=
  if n ≤ 1 then 0 else Nat.log 256 (n - 1) + 1

/-- Modelled from the spec: `write_ord` emits the ordinal little-endian in
`ord_num_bytes n` bytes. -/
def write_ord (ord n : Nat) : List Nat :=
  write_le_bytes (ord_num_bytes n) ord

/-- Per-frame API state of the encoder, from `ApiState` in
src/encoder_.rs. -/
inductive EApiState
  | autoFinishInProg
  | needEncode
  | seqInProg (declared_len : Nat) (encoded_len : Nat)
  | tupleInProg (next_need : Nat)
  | structInProg (next_need : Nat)
deriving DecidableEq, Repr

/-- One stack entry of the encoder, from `StackFrame` in
src/encoder_.rs. -/
structure EStackFrame where
  schema : Schema
  api_state : EApiState
deriving Repr

/-- The encoder state, from `EncoderState` in src/encoder_.rs: the frame
stack (list head = top) together with the byte sink `write`, modelled as
the list of bytes written so far. -/
structure EncoderState where
  stack : List EStackFrame
  write : List Nat
deriving Repr

/-- `EncoderState::new` over an empty sink. -/
def EncoderState.new (schema : Schema) : EncoderState :=
  ⟨[{ schema := schema, api_state := .needEncode }], []⟩

/-- `EncoderState::is_finished`. -/
def EncoderState.is_finished (st : EncoderState) : Bool :=
  st.stack.isEmpty

/-- Error produced by the `validate_top!` macro in src/encoder_.rs for a
mismatched top frame. -/
def eFrameErr (f : EStackFrame) : ErrKind :=
  match f.api_state with
  | .autoFinishInProg => .panicUnreachable
  | .needEncode => .schemaNonConformance
  | .seqInProg _ _ => .apiUsage
  | .tupleInProg _ => .apiUsage
  | .structInProg _ => .apiUsage

/-- `Encoder::push_need_encode` (src/encoder_.rs): resolve `Recurse`
back-edges against the live stack and push a `NeedEncode` frame. -/
def EncoderState.push_need_encode (st : EncoderState) (s : Schema) :
    Except ErrKind EncoderState :=
  match resolveRecurse (st.stack.map EStackFrame.schema) s with
  | .error e => .error e
  | .ok r => .ok ⟨{ schema := r, api_state := .needEncode } :: st.stack, st.write⟩

/-- The `while` loop of `Encoder::pop`: repeatedly pop `AutoFinishInProg`
frames off the top of the stack. -/
def popAutoFinishE : List EStackFrame → List EStackFrame
  | [] => []
  | f :: rest => if f.api_state = .autoFinishInProg then popAutoFinishE rest else f :: rest

/-- `Encoder::pop` (src/encoder_.rs). -/
def EncoderState.pop (st : EncoderState) : EncoderState :=
  ⟨popAutoFinishE st.stack.tail, st.write⟩

/-- Common shape of every `encode_*` method of src/encoder_.rs
(`encode_le_bytes!`, `encode_var_len_uint!`, `encode_var_len_sint!`,
`encode_char`, `encode_bool`, `encode_unit`, `encode_str`,
`encode_bytes`): `validate_need_encode_eq!` against `got`, write the
prescribed bytes `bs`, pop. -/
def EncoderState.encode_simple (st : EncoderState) (got : Schema) (bs : List Nat) :
    Except ErrKind Unit × EncoderState :=
  match st.stack with
  | [] => (.error .apiUsage, st)
  | top :: _ =>
    if top.api_state = .needEncode && Schema.beq top.schema got then
      (.ok (), EncoderState.pop ⟨st.stack, st.write ++ bs⟩)
    else
      (.error (eFrameErr top), st)

/-- `Encoder::encode_none`: validate an `Option` schema, write the tag
byte 0, pop (completing the option). -/
def EncoderState.encode_none (st : EncoderState) : Except ErrKind Unit × EncoderState :=
  match st.stack with
  | [] => (.error .apiUsage, st)
  | top :: _ =>
    match top.api_state, top.schema with
    | .needEncode, .option _ =>
      (.ok (), EncoderState.pop ⟨st.stack, st.write ++ [0]⟩)
    | _, _ => (.error (eFrameErr top), st)

/-- `Encoder::begin_some`: validate an `Option` schema, write the tag
byte 1, mark the frame `AutoFinishInProg` and push the inner schema. -/
def EncoderState.begin_some (st : EncoderState) : Except ErrKind Unit × EncoderState :=
  match st.stack with
  | [] => (.error .apiUsage, st)
  | top :: rest =>
    match top.api_state, top.schema with
    | .needEncode, .option inner =>
      let st1 : EncoderState :=
        ⟨{ top with api_state := .autoFinishInProg } :: rest, st.write ++ [1]⟩
      match st1.push_need_encode inner with
      | .error e => (.error e, st1)
      | .ok st2 => (.ok (), st2)
    | _, _ => (.error (eFrameErr top), st)

/-- `Encoder::begin_seq`: against a fixed-length `Seq` schema the supplied
length must equal the declared one and nothing is written; against a
variable-length `Seq` schema the supplied length is written as a varint.
The frame becomes `SeqInProg { declared_len: len, encoded_len: 0 }`. -/
def EncoderState.begin_seq (st : EncoderState) (len : Nat) :
    Except ErrKind Unit × EncoderState :=
  match st.stack with
  | [] => (.error .apiUsage, st)
  | top :: rest =>
    match top.api_state, top.schema with
    | .needEncode, .seq need_len _ =>
      match need_len with
      | some l =>
        if l = len then
          (.ok (), ⟨{ top with api_state := .seqInProg len 0 } :: rest, st.write⟩)
        else (.error .schemaNonConformance, st)
      | none =>
        (.ok (), ⟨{ top with api_state := .seqInProg len 0 } :: rest,
          st.write ++ write_var_len_uint len⟩)
    | _, _ => (.error (eFrameErr top), st)

/-- `Encoder::begin_seq_elem`: only while fewer than `declared_len`
elements have been encoded; increments `encoded_len` before pushing the
inner schema. -/
def EncoderState.begin_seq_elem (st : EncoderState) : Except ErrKind Unit × EncoderState :=
  match st.stack with
  | [] => (.error .apiUsage, st)
  | top :: rest =>
    match top.api_state with
    | .seqInProg declared_len encoded_len =>
      if encoded_len + 1 ≤ declared_len then
        let st1 : EncoderState :=
          ⟨{ top with api_state := .seqInProg declared_len (encoded_len + 1) } :: rest,
            st.write⟩
        match top.schema with
        | .seq _ inner =>
          match st1.push_need_encode inner with
          | .error e => (.error e, st1)
          | .ok st2 => (.ok (), st2)
        | _ => (.error .panicUnreachable, st1)
      else (.error .apiUsage, st)
    | _ => (.error (eFrameErr top), st)

/-- `Encoder::finish_seq`: only once `encoded_len = declared_len`;
pops. -/
def EncoderState.finish_seq (st : EncoderState) : Except ErrKind Unit × EncoderState :=
  match st.stack with
  | [] => (.error .apiUsage, st)
  | top :: _ =>
    match top.api_state with
    | .seqInProg declared_len encoded_len =>
      if encoded_len = declared_len then (.ok (), st.pop)
      else (.error .apiUsage, st)
    | _ => (.error (eFrameErr top), st)

/-- `Encoder::begin_tuple`. -/
def EncoderState.begin_tuple (st : EncoderState) : Except ErrKind Unit × EncoderState :=
  match st.stack with
  | [] => (.error .apiUsage, st)
  | top :: rest =>
    match top.api_state, top.schema with
    | .needEncode, .tuple _ =>
      (.ok (), ⟨{ top with api_state := .tupleInProg 0 } :: rest, st.write⟩)
    | _, _ => (.error (eFrameErr top), st)

/-- `Encoder::begin_tuple_elem`. -/
def EncoderState.begin_tuple_elem (st : EncoderState) : Except ErrKind Unit × EncoderState :=
  match st.stack with
  | [] => (.error .apiUsage, st)
  | top :: rest =>
    match top.api_state with
    | .tupleInProg next_need =>
      match top.schema with
      | .tuple inners =>
        match inners.get? next_need with
        | none => (.error .schemaNonConformance, st)
        | some inner =>
          let st1 : EncoderState :=
            ⟨{ top with api_state := .tupleInProg (next_need + 1) } :: rest, st.write⟩
          match st1.push_need_encode inner with
          | .error e => (.error e, st1)
          | .ok st2 => (.ok (), st2)
      | _ => (.error .panicUnreachable, st)
    | _ => (.error (eFrameErr top), st)

/-- `Encoder::finish_tuple`. -/
def EncoderState.finish_tuple (st : EncoderState) : Except ErrKind Unit × EncoderState :=
  match st.stack with
  | [] => (.error .apiUsage, st)
  | top :: _ =>
    match top.api_state with
    | .tupleInProg next_need =>
      match top.schema with
      | .tuple inners =>
        if inners.length = next_need then (.ok (), st.pop)
        else (.error .schemaNonConformance, st)
      | _ => (.error .panicUnreachable, st)
    | _ => (.error (eFrameErr top), st)

/-- `Encoder::begin_struct`. -/
def EncoderState.begin_struct (st : EncoderState) : Except ErrKind Unit × EncoderState :=
  match st.stack with
  | [] => (.error .apiUsage, st)
  | top :: rest =>
    match top.api_state, top.schema with
    | .needEncode, .struct _ =>
      (.ok (), ⟨{ top with api_state := .structInProg 0 } :: rest, st.write⟩)
    | _, _ => (.error (eFrameErr top), st)

/-- `Encoder::begin_struct_field`. -/
def EncoderState.begin_struct_field (st : EncoderState) (name : String) :
    Except ErrKind Unit × EncoderState :=
  match st.stack with
  | [] => (.error .apiUsage, st)
  | top :: rest =>
    match top.api_state with
    | .structInProg next_need =>
      match top.schema with
      | .struct fields =>
        match fields.get? next_need with
        | none => (.error .schemaNonConformance, st)
        | some field =>
          if field.1 == name then
            let st1 : EncoderState :=
              ⟨{ top with api_state := .structInProg (next_need + 1) } :: rest, st.write⟩
            match st1.push_need_encode field.2 with
            | .error e => (.error e, st1)
            | .ok st2 => (.ok (), st2)
          else (.error .schemaNonConformance, st)
      | _ => (.error .panicUnreachable, st)
    | _ => (.error (eFrameErr top), st)

/-- `Encoder::finish_struct`. -/
def EncoderState.finish_struct (st : EncoderState) : Except ErrKind Unit × EncoderState :=
  match st.stack with
  | [] => (.error .apiUsage, st)
  | top :: _ =>
    match top.api_state with
    | .structInProg next_need =>
      match top.schema with
      | .struct fields =>
        if fields.length = next_need then (.ok (), st.pop)
        else (.error .schemaNonConformance, st)
      | _ => (.error .panicUnreachable, st)
    | _ => (.error (eFrameErr top), st)

/-- `Encoder::begin_enum` (src/encoder_.rs): validate the variant ordinal
and name against a `NeedEncode` frame over an `Enum` schema, write the
ordinal via `write_ord`, mark the frame `AutoFinishInProg` and push the
variant's inner schema.  As in the coder, the mark and the ordinal bytes
are not rolled back when the final `push_need_encode` fails. -/
def EncoderState.begin_enum (st : EncoderState) (variant_ord : Nat)
    (variant_name : String) : Except ErrKind Unit × EncoderState :=
  match st.stack with
  | [] => (.error .apiUsage, st)
  | top :: rest =>
    match top.api_state, top.schema with
    | .needEncode, .enum variants =>
      match variants.get? variant_ord with
      | none => (.error .schemaNonConformance, st)
      | some v =>
        if variant_name == v.1 then
          let st1 : EncoderState :=
            ⟨{ top with api_state := .autoFinishInProg } :: rest,
              st.write ++ write_ord variant_ord variants.length⟩
          match st1.push_need_encode v.2 with
          | .error e => (.error e, st1)
          | .ok st2 => (.ok (), st2)
        else (.error .schemaNonConformance, st)
    | _, _ => (.error (eFrameErr top), st)

/-- The public operations of `Encoder` (src/encoder_.rs).  `f32`/`f64`
values are carried as their IEEE bit patterns (the encoder only moves
their `to_le_bytes` representation), and `&str` / `&[u8]` arguments as
their byte lists. -/
inductive EncOp
  | encode_u8 (n : Nat)
  | encode_u16 (n : Nat)
  | encode_i8 (x : Int)
  | encode_i16 (x : Int)
  | encode_f32 (bits : Nat)
  | encode_f64 (bits : Nat)
  | encode_u32 (n : Nat)
  | encode_u64 (n : Nat)
  | encode_u128 (n : Nat)
  | encode_i32 (x : Int)
  | encode_i64 (x : Int)
  | encode_i128 (x : Int)
  | encode_char (c : Nat)
  | encode_bool (b : Bool)
  | encode_unit
  | encode_str (s : List Nat)
  | encode_bytes (b : List Nat)
  | encode_none
  | begin_some
  | begin_seq (len : Nat)
  | begin_seq_elem
  | finish_seq
  | begin_tuple
  | begin_tuple_elem
  | finish_tuple
  | begin_struct
  | begin_struct_field (name : String)
  | finish_struct
  | begin_enum (variant_ord : Nat) (variant_name : String)
deriving Repr

/-- Dispatch an encoder operation; the second component is the state after
the call, mirroring Rust's in-place mutation (also on error). -/
def applyEnc (st : EncoderState) : EncOp → Except ErrKind Unit × EncoderState
  | .encode_u8 n => st.encode_simple (.scalar .u8) (write_le_bytes 1 n)
  | .encode_u16 n => st.encode_simple (.scalar .u16) (write_le_bytes 2 n)
  | .encode_i8 x => st.encode_simple (.scalar .i8) (int_le_bytes 1 x)
  | .encode_i16 x => st.encode_simple (.scalar .i16) (int_le_bytes 2 x)
  | .encode_f32 bits => st.encode_simple (.scalar .f32) (write_le_bytes 4 bits)
  | .encode_f64 bits => st.encode_simple (.scalar .f64) (write_le_bytes 8 bits)
  | .encode_u32 n => st.encode_simple (.scalar .u32) (write_var_len_uint n)
  | .encode_u64 n => st.encode_simple (.scalar .u64) (write_var_len_uint n)
  | .encode_u128 n => st.encode_simple (.scalar .u128) (write_var_len_uint n)
  | .encode_i32 x => st.encode_simple (.scalar .i32) (write_var_len_sint x)
  | .encode_i64 x => st.encode_simple (.scalar .i64) (write_var_len_sint x)
  | .encode_i128 x => st.encode_simple (.scalar .i128) (write_var_len_sint x)
  | .encode_char c => st.encode_simple (.scalar .char) (write_le_bytes 4 c)
  | .encode_bool b => st.encode_simple (.scalar .bool) [if b then 1 else 0]
  | .encode_unit => st.encode_simple .unit []
  | .encode_str s => st.encode_simple .str (write_var_len_uint s.length ++ s)
  | .encode_bytes b => st.encode_simple .bytes (write_var_len_uint b.length ++ b)
  | .encode_none => st.encode_none
  | .begin_some => st.begin_some
  | .begin_seq len => st.begin_seq len
  | .begin_seq_elem => st.begin_seq_elem
  | .finish_seq => st.finish_seq
  | .begin_tuple => st.begin_tuple
  | .begin_tuple_elem => st.begin_tuple_elem
  | .finish_tuple => st.finish_tuple
  | .begin_struct => st.begin_struct
  | .begin_struct_field name => st.begin_struct_field name
  | .finish_struct => st.finish_struct
  | .begin_enum ord name => st.begin_enum ord name

/-- Run a list of encoder operations in order, stopping at the first
error. -/
def runEnc (st : EncoderState) : List EncOp → Except ErrKind Unit × EncoderState
  | [] => (.ok (), st)
  | op :: ops =>
    match applyEnc st op with
    | (.ok _, st2) => runEnc st2 ops
    | (.error e, st2) => (.error e, st2)

/-- Modelled from the spec: the `var_len` reading half (absent
src/var_len.rs): read continuation-bit bytes, least-significant group
first, refusing values that overflow the 128-bit target width.  Returns
the value and the unread remainder of the input. -/
def read_var_len_uint_go : List Nat → Nat → Nat → Except ErrKind (Nat × List Nat)
  | [], _, _ => .error .endOfInput
  | b :: rest, shift, acc =>
    let acc2 := acc + b % 128 * 2 ^ shift
    if b < 128 then
      if acc2 < 2 ^ 128 then .ok (acc2, rest) else .error .malformedData
    else read_var_len_uint_go rest (shift + 7) acc2

/-- Modelled from the spec: entry point of the varint reader. -/
def read_var_len_uint (input : List Nat) : Except ErrKind (Nat × List Nat) :=
  read_var_len_uint_go input 0 0

/-- `Decoder::read_len` (src/decoder.rs): read a varint and convert it to
`usize` (modelled as 64-bit), failing with a platform-limits error when it
does not fit. -/
def read_len (input : List Nat) : Except ErrKind (Nat × List Nat) :=
  match read_var_len_uint input with
  | .error e => .error e
  | .ok (n, rest) => if n < 2 ^ 64 then .ok (n, rest) else .error .platformLimits

/-- Validity of a `u32` as a Unicode scalar value, the check performed by
`char::from_u32` in `Decoder::decode_char`: below 0x110000 and not a
surrogate. -/
def validChar (n : Nat) : Bool :=
  n < 0xD800 || (0xE000 ≤ n && n < 0x110000)

/-- Whether `c` is a UTF-8 continuation byte. -/
def utf8Cont (c : Nat) : Bool :=
  0x80 ≤ c && c ≤ 0xBF

/-- Validity of a byte sequence as UTF-8, the check performed by
`String::from_utf8` in `Decoder::decode_str_into`: well-formed 1–4 byte
sequences, no overlong forms, no surrogates, maximum 0x10FFFF. -/
def utf8Valid : List Nat → Bool
  | [] => true
  | b :: rest =>
    if b ≤ 0x7F then utf8Valid rest
    else if b < 0xC2 then false
    else if b ≤ 0xDF then
      match rest with
      | c :: r => utf8Cont c && utf8Valid r
      | _ => false
    else if b ≤ 0xEF then
      match rest with
      | c :: d :: r =>
        (if b = 0xE0 then decide (0xA0 ≤ c) && decide (c ≤ 0xBF)
         else if b = 0xED then decide (0x80 ≤ c) && decide (c ≤ 0x9F)
         else utf8Cont c) && utf8Cont d && utf8Valid r
      | _ => false
    else if b ≤ 0xF4 then
      match rest with
      | c :: d :: e :: r =>
        (if b = 0xF0 then decide (0x90 ≤ c) && decide (c ≤ 0xBF)
         else if b = 0xF4 then decide (0x80 ≤ c) && decide (c ≤ 0x8F)
         else utf8Cont c) && utf8Cont d && utf8Cont e && utf8Valid r
      | _ => false
    else false

/-- The decoder, from `Decoder` in src/decoder.rs: a coder state paired
with the byte source, modelled as the list of bytes not yet read.  The
exact position of the source after a failed read is not modelled. -/
structure DecoderState where
  state : CoderState
  read : List Nat
deriving Repr

/-- `Decoder::decode_bool` (src/decoder.rs): advance the coder via
`code_bool`, read one byte, and map 0 to `false`, 1 to `true`, anything
else to a malformed-data error. -/
def DecoderState.decode_bool (st : DecoderState) : Except ErrKind Bool × DecoderState :=
  match st.state.code_simple (.scalar .bool) with
  | (.error e, cs) => (.error e, ⟨cs, st.read⟩)
  | (.ok _, cs) =>
    match st.read with
    | [] => (.error .endOfInput, ⟨cs, st.read⟩)
    | n :: rest =>
      if n = 0 then (.ok false, ⟨cs, rest⟩)
      else if n = 1 then (.ok true, ⟨cs, rest⟩)
      else (.error .malformedData, ⟨cs, rest⟩)

/-- `Decoder::decode_char` (src/decoder.rs): advance the coder via
`code_char`, read four little-endian bytes, and validate the value as a
Unicode scalar (`char::from_u32`), returning the codepoint. -/
def DecoderState.decode_char (st : DecoderState) : Except ErrKind Nat × DecoderState :=
  match st.state.code_simple (.scalar .char) with
  | (.error e, cs) => (.error e, ⟨cs, st.read⟩)
  | (.ok _, cs) =>
    match st.read with
    | b0 :: b1 :: b2 :: b3 :: rest =>
      let n := b0 + 256 * b1 + 65536 * b2 + 16777216 * b3
      if validChar n then (.ok n, ⟨cs, rest⟩)
      else (.error .malformedData, ⟨cs, rest⟩)
    | _ => (.error .endOfInput, ⟨cs, st.read⟩)

/-- `Decoder::decode_str_into` (src/decoder.rs): clear the caller's
buffer, advance the coder via `code_str`, read the varint length prefix,
read that many payload bytes, and validate them as UTF-8.  The final
component is the buffer as left by the call: the payload on success and
the empty string on every error path (`buf` is cleared up front and the
byte buffer is re-cleared before being handed back on a read or UTF-8
failure). -/
def DecoderState.decode_str_into (st : DecoderState) (_buf : List Nat) :
    Except ErrKind Unit × DecoderState × List Nat :=
  match st.state.code_simple .str with
  | (.error e, cs) => (.error e, ⟨cs, st.read⟩, [])
  | (.ok _, cs) =>
    match read_len st.read with
    | .error e => (.error e, ⟨cs, st.read⟩, [])
    | .ok (len, rest) =>
      if rest.length < len then (.error .endOfInput, ⟨cs, rest⟩, [])
      else if utf8Valid (rest.take len) then
        (.ok (), ⟨cs, rest.drop len⟩, rest.take len)
      else (.error .malformedData, ⟨cs, rest.drop len⟩, [])

/-- `Decoder::decode_str` (src/decoder.rs): `decode_str_into` a fresh
buffer. -/
def DecoderState.decode_str (st : DecoderState) :
    Except ErrKind Unit × DecoderState × List Nat :=
  st.decode_str_into []

/-- C9: for every CoderState constructed over a root schema that is not
itself a Recurse node, every reachable state (including states left by
failed operations) has no stack frame whose schema is a Recurse node:
every pushing operation resolves Recurse chains completely before
pushing. -/
theorem C9_no_recurse_frames (root : Schema) (st : CoderState)
    (hroot : root.isRecurse = false) (h : Reachable root st) :
    ∀ f ∈ st.stack, f.schema.isRecurse = false :=
  reachable_noRecurse hroot h

theorem C9_no_recurse_frames_witness :
    (Schema.option .str).isRecurse = false ∧
      ∀ f ∈ (CoderState.new (.option .str)).stack, f.schema.isRecurse = false :=
  ⟨rfl, C9_no_recurse_frames (.option .str) (CoderState.new (.option .str)) rfl
    Reachable.init⟩

/-- C2: pushing a `Need` frame whose schema is `Recurse(n)` errors when
`n = 0` or when fewer than `n` frames lie below the pushed position, and
otherwise pushes the ancestor schema found `n` positions up, following
consecutive Recurse nodes transitively until a non-Recurse schema is
reached — for both `push_need` (coder) and `push_need_encode`
(encoder). -/
theorem C2_recurse_resolution :
    (∀ st : CoderState, st.push_need (.recurse 0) = .error .invalidSchema) ∧
    (∀ (st : CoderState) (n : Nat), st.stack.length < n →
      st.push_need (.recurse n) = .error .invalidSchema) ∧
    (∀ (st : CoderState) (s : Schema) (st2 : CoderState), st.push_need s = .ok st2 →
      ∃ r, ResolvesTo (st.stack.map StackFrame.schema) s r ∧ r.isRecurse = false ∧
        st2.stack = { schema := r, api_state := .need } :: st.stack) ∧
    (∀ st : EncoderState, st.push_need_encode (.recurse 0) = .error .invalidSchema) ∧
    (∀ (st : EncoderState) (n : Nat), st.stack.length < n →
      st.push_need_encode (.recurse n) = .error .invalidSchema) ∧
    (∀ (st : EncoderState) (s : Schema) (st2 : EncoderState),
      st.push_need_encode s = .ok st2 →
      ∃ r, ResolvesTo (st.stack.map EStackFrame.schema) s r ∧ r.isRecurse = false ∧
        st2.stack = { schema := r, api_state := .needEncode } :: st.stack ∧
        st2.write = st.write) := by
  refine ⟨?_, ?_, ?_, ?_, ?_, ?_⟩
  · intro st
    simp [CoderState.push_need, resolveRecurse]
  · intro st n hlen
    have hn : n ≠ 0 := by omega
    have hnlt : ¬ n - 1 < st.stack.length := by omega
    rw [CoderState.push_need, resolveRecurse]
    simp [hn, hnlt]
  · intro st s st2 h
    cases hres : resolveRecurse (st.stack.map StackFrame.schema) s with
    | error e => simp [CoderState.push_need, hres] at h
    | ok r =>
      simp only [CoderState.push_need, hres] at h
      cases h
      exact ⟨r, resolveRecurse_ok_resolvesTo hres, resolveRecurse_ok_not_recurse hres,
        rfl⟩
  · intro st
    simp [EncoderState.push_need_encode, resolveRecurse]
  · intro st n hlen
    have hn : n ≠ 0 := by omega
    have hnlt : ¬ n - 1 < st.stack.length := by omega
    rw [EncoderState.push_need_encode, resolveRecurse]
    simp [hn, hnlt]
  · intro st s st2 h
    cases hres : resolveRecurse (st.stack.map EStackFrame.schema) s with
    | error e => simp [EncoderState.push_need_encode, hres] at h
    | ok r =>
      simp only [EncoderState.push_need_encode, hres] at h
      cases h
      exact ⟨r, resolveRecurse_ok_resolvesTo hres, resolveRecurse_ok_not_recurse hres,
        rfl, rfl⟩

theorem C2_recurse_resolution_witness :
    (CoderState.new .str).push_need (.recurse 0) = .error .invalidSchema ∧
    (CoderState.new .str).push_need (.recurse 2) = .error .invalidSchema ∧
    (∃ r, ResolvesTo ((CoderState.new .str).stack.map StackFrame.schema) (.recurse 1) r ∧
      r.isRecurse = false ∧
      ({ schema := r, api_state := .need } : StackFrame) :: (CoderState.new .str).stack =
        { schema := r, api_state := .need } :: (CoderState.new .str).stack) := by
  refine ⟨C2_recurse_resolution.1 _, C2_recurse_resolution.2.1 _ 2 (by decide), ?_⟩
  have hpush : (CoderState.new .str).push_need (.recurse 1) =
      .ok ⟨[{ schema := .str, api_state := .need },
            { schema := .str, api_state := .need }]⟩ := by
    simp [CoderState.push_need, CoderState.new, resolveRecurse]
  obtain ⟨r, h1, h2, _⟩ :=
    C2_recurse_resolution.2.2.1 (CoderState.new .str) (.recurse 1)
      ⟨[{ schema := .str, api_state := .need }, { schema := .str, api_state := .need }]⟩
      hpush
  exact ⟨r, h1, h2, rfl⟩

theorem popAutoFinishE_spec (l : List EStackFrame) :
    (∃ autos, l = autos ++ popAutoFinishE l ∧
      ∀ a ∈ autos, a.api_state = .autoFinishInProg) ∧
    ∀ f rest, popAutoFinishE l = f :: rest → f.api_state ≠ .autoFinishInProg := by
  induction l with
  | nil =>
    refine ⟨⟨[], rfl, by simp⟩, ?_⟩
    intro f rest hf
    simp [popAutoFinishE] at hf
  | cons g tail ih =>
    by_cases hg : g.api_state = .autoFinishInProg
    · obtain ⟨⟨autos, heq, hall⟩, hhead⟩ := ih
      refine ⟨⟨g :: autos, ?_, ?_⟩, ?_⟩
      · simp only [popAutoFinishE, if_pos hg, List.cons_append]
        rw [← heq]
      · intro a ha
        rcases List.mem_cons.mp ha with rfl | hmem
        · exact hg
        · exact hall a hmem
      · intro f rest hf
        simp only [popAutoFinishE, if_pos hg] at hf
        exact hhead f rest hf
    · refine ⟨⟨[], by simp [popAutoFinishE, hg], by simp⟩, ?_⟩
      intro f rest hf
      simp only [popAutoFinishE, if_neg hg] at hf
      cases hf
      exact hg

theorem popAutoFinish_spec (l : List StackFrame) :
    (∃ autos, l = autos ++ popAutoFinish l ∧
      ∀ a ∈ autos, a.api_state = .autoFinish) ∧
    ∀ f rest, popAutoFinish l = f :: rest → f.api_state ≠ .autoFinish := by
  induction l with
  | nil =>
    refine ⟨⟨[], rfl, by simp⟩, ?_⟩
    intro f rest hf
    simp [popAutoFinish] at hf
  | cons g tail ih =>
    by_cases hg : g.api_state = .autoFinish
    · obtain ⟨⟨autos, heq, hall⟩, hhead⟩ := ih
      refine ⟨⟨g :: autos, ?_, ?_⟩, ?_⟩
      · simp only [popAutoFinish, if_pos hg, List.cons_append]
        rw [← heq]
      · intro a ha
        rcases List.mem_cons.mp ha with rfl | hmem
        · exact hg
        · exact hall a hmem
      · intro f rest hf
        simp only [popAutoFinish, if_pos hg] at hf
        exact hhead f rest hf
    · refine ⟨⟨[], by simp [popAutoFinish, hg], by simp⟩, ?_⟩
      intro f rest hf
      simp only [popAutoFinish, if_neg hg] at hf
      cases hf
      exact hg

theorem encode_simple_ok {st : EncoderState} {got : Schema} {bs : List Nat}
    {st2 : EncoderState} (h : st.encode_simple got bs = (.ok (), st2)) :
    st2.stack = popAutoFinishE st.stack.tail ∧ st.stack ≠ [] := by
  obtain ⟨stack, w⟩ := st
  cases stack with
  | nil => simp [EncoderState.encode_simple] at h
  | cons top tl =>
    simp only [EncoderState.encode_simple] at h
    split at h
    · injection h with h1 h2
      subst h2
      exact ⟨rfl, by simp⟩
    · simp at h

theorem encode_none_ok {st st2 : EncoderState}
    (h : st.encode_none = (.ok (), st2)) :
    st2.stack = popAutoFinishE st.stack.tail ∧ st.stack ≠ [] := by
  obtain ⟨stack, w⟩ := st
  cases stack with
  | nil => simp [EncoderState.encode_none] at h
  | cons top tl =>
    simp only [EncoderState.encode_none] at h
    split at h
    · injection h with h1 h2
      subst h2
      exact ⟨rfl, by simp⟩
    · simp at h

theorem finish_seq_ok {st st2 : EncoderState}
    (h : st.finish_seq = (.ok (), st2)) :
    st2.stack = popAutoFinishE st.stack.tail ∧ st.stack ≠ [] := by
  obtain ⟨stack, w⟩ := st
  cases stack with
  | nil => simp [EncoderState.finish_seq] at h
  | cons top tl =>
    simp only [EncoderState.finish_seq] at h
    split at h
    · split at h
      · injection h with h1 h2
        subst h2
        exact ⟨rfl, by simp⟩
      · simp at h
    · simp at h

theorem finish_tuple_ok {st st2 : EncoderState}
    (h : st.finish_tuple = (.ok (), st2)) :
    st2.stack = popAutoFinishE st.stack.tail ∧ st.stack ≠ [] := by
  obtain ⟨stack, w⟩ := st
  cases stack with
  | nil => simp [EncoderState.finish_tuple] at h
  | cons top tl =>
    simp only [EncoderState.finish_tuple] at h
    split at h
    · split at h
      · split at h
        · injection h with h1 h2
          subst h2
          exact ⟨rfl, by simp⟩
        · simp at h
      · simp at h
    · simp at h

theorem finish_struct_ok {st st2 : EncoderState}
    (h : st.finish_struct = (.ok (), st2)) :
    st2.stack = popAutoFinishE st.stack.tail ∧ st.stack ≠ [] := by
  obtain ⟨stack, w⟩ := st
  cases stack with
  | nil => simp [EncoderState.finish_struct] at h
  | cons top tl =>
    simp only [EncoderState.finish_struct] at h
    split at h
    · split at h
      · split at h
        · injection h with h1 h2
          subst h2
          exact ⟨rfl, by simp⟩
        · simp at h
      · simp at h
    · simp at h

theorem code_simple_ok {st : CoderState} {got : Schema} {st2 : CoderState}
    (h : st.code_simple got = (.ok (), st2)) :
    st2.stack = popAutoFinish st.stack.tail ∧ st.stack ≠ [] := by
  obtain ⟨stack⟩ := st
  cases stack with
  | nil => simp [CoderState.code_simple] at h
  | cons top tl =>
    simp only [CoderState.code_simple] at h
    split at h
    · injection h with h1 h2
      subst h2
      exact ⟨rfl, by simp⟩
    · simp at h

theorem coder_finish_tuple_ok {st st2 : CoderState}
    (h : st.finish_tuple = (.ok (), st2)) :
    st2.stack = popAutoFinish st.stack.tail ∧ st.stack ≠ [] := by
  obtain ⟨stack⟩ := st
  cases stack with
  | nil => simp [CoderState.finish_tuple] at h
  | cons top tl =>
    simp only [CoderState.finish_tuple] at h
    split at h
    · split at h
      · split at h
        · injection h with h1 h2
          subst h2
          exact ⟨rfl, by simp⟩
        · simp at h
      · simp at h
    · simp at h

theorem coder_finish_struct_ok {st st2 : CoderState}
    (h : st.finish_struct = (.ok (), st2)) :
    st2.stack = popAutoFinish st.stack.tail ∧ st.stack ≠ [] := by
  obtain ⟨stack⟩ := st
  cases stack with
  | nil => simp [CoderState.finish_struct] at h
  | cons top tl =>
    simp only [CoderState.finish_struct] at h
    split at h
    · split at h
      · split at h
        · injection h with h1 h2
          subst h2
          exact ⟨rfl, by simp⟩
        · simp at h
      · simp at h
    · simp at h

/-- The operations of src/coder/coder.rs that pop a completed frame: the
`code_*` family and the two `finish_*` methods. -/
def isPoppingCoderOp : CoderOp → Bool
  | .code _ | .finish_tuple | .finish_struct => true
  | _ => false

/-- The operations of src/encoder_.rs that pop a completed frame: the
`encode_*` family, `encode_none` and the three `finish_*` methods. -/
def isPoppingEncOp : EncOp → Bool
  | .encode_u8 _ | .encode_u16 _ | .encode_i8 _ | .encode_i16 _ | .encode_f32 _
  | .encode_f64 _ | .encode_u32 _ | .encode_u64 _ | .encode_u128 _ | .encode_i32 _
  | .encode_i64 _ | .encode_i128 _ | .encode_char _ | .encode_bool _ | .encode_unit
  | .encode_str _ | .encode_bytes _ | .encode_none | .finish_seq | .finish_tuple
  | .finish_struct => true
  | _ => false

/-- C3: after any successful popping operation the machine has also popped
every immediately enclosing AutoFinish frame, repeatedly, so an AutoFinish
frame is never left on top of the stack — for the encoder of
src/encoder_.rs and the coder of src/coder/coder.rs alike. -/
theorem C3_auto_finish :
    (∀ (st : EncoderState) (op : EncOp) (st2 : EncoderState),
      isPoppingEncOp op = true → applyEnc st op = (.ok (), st2) →
      (∃ topF autos, st.stack = topF :: autos ++ st2.stack ∧
        ∀ a ∈ autos, a.api_state = .autoFinishInProg) ∧
      ∀ f rest, st2.stack = f :: rest → f.api_state ≠ .autoFinishInProg) ∧
    (∀ (st : CoderState) (op : CoderOp) (st2 : CoderState),
      isPoppingCoderOp op = true → applyCoder st op = (.ok (), st2) →
      (∃ topF autos, st.stack = topF :: autos ++ st2.stack ∧
        ∀ a ∈ autos, a.api_state = .autoFinish) ∧
      ∀ f rest, st2.stack = f :: rest → f.api_state ≠ .autoFinish) := by
  constructor
  · intro st op st2 hpop h
    have hstack : st2.stack = popAutoFinishE st.stack.tail ∧ st.stack ≠ [] := by
      cases op <;>
        first
        | exact encode_simple_ok h
        | exact encode_none_ok h
        | exact finish_seq_ok h
        | exact finish_tuple_ok h
        | exact finish_struct_ok h
        | simp [isPoppingEncOp] at hpop
    obtain ⟨h2, hne⟩ := hstack
    cases hst : st.stack with
    | nil => exact absurd hst hne
    | cons topF tl =>
      rw [hst] at h2
      simp only [List.tail_cons] at h2
      obtain ⟨⟨autos, heq, hall⟩, hhead⟩ := popAutoFinishE_spec tl
      refine ⟨⟨topF, autos, ?_, hall⟩, ?_⟩
      · rw [h2]
        exact congrArg (fun l => topF :: l) heq
      · intro f rest hf
        exact hhead f rest (h2 ▸ hf)
  · intro st op st2 hpop h
    have hstack : st2.stack = popAutoFinish st.stack.tail ∧ st.stack ≠ [] := by
      cases op <;>
        first
        | exact code_simple_ok h
        | exact coder_finish_tuple_ok h
        | exact coder_finish_struct_ok h
        | simp [isPoppingCoderOp] at hpop
    obtain ⟨h2, hne⟩ := hstack
    cases hst : st.stack with
    | nil => exact absurd hst hne
    | cons topF tl =>
      rw [hst] at h2
      simp only [List.tail_cons] at h2
      obtain ⟨⟨autos, heq, hall⟩, hhead⟩ := popAutoFinish_spec tl
      refine ⟨⟨topF, autos, ?_, hall⟩, ?_⟩
      · rw [h2]
        exact congrArg (fun l => topF :: l) heq
      · intro f rest hf
        exact hhead f rest (h2 ▸ hf)

theorem C3_auto_finish_witness :
    isPoppingEncOp (.encode_str [104, 105]) = true ∧
    ((∃ topF autos,
        ({ schema := .str, api_state := .needEncode } : EStackFrame) ::
          [{ schema := .option .str, api_state := .autoFinishInProg }] =
          topF :: autos ++
            (applyEnc ⟨[{ schema := .str, api_state := .needEncode },
              { schema := .option .str, api_state := .autoFinishInProg }], []⟩
                (.encode_str [104, 105])).2.stack ∧
          ∀ a ∈ autos, a.api_state = .autoFinishInProg) ∧
      ∀ f rest,
        (applyEnc ⟨[{ schema := .str, api_state := .needEncode },
          { schema := .option .str, api_state := .autoFinishInProg }], []⟩
            (.encode_str [104, 105])).2.stack = f :: rest →
        f.api_state ≠ .autoFinishInProg) := by
  refine ⟨rfl, ?_⟩
  exact C3_auto_finish.1
    ⟨[{ schema := .str, api_state := .needEncode },
      { schema := .option .str, api_state := .autoFinishInProg }], []⟩
    (.encode_str [104, 105]) _ rfl rfl

/-- C5 fails on the code: beginning the enum variant of a schema
`Enum [("A", Recurse 0)]` errors while resolving the variant's inner
schema, yet the coder is NOT rolled back — the enum frame is left marked
`AutoFinish` instead of `Enum`. -/
theorem C5_counterexample :
    resOk ((CoderState.mk [{ schema := .enum [("A", .recurse 0)], api_state := .enum }]
      ).begin_enum_variant 0 "A").1 = false ∧
    ((CoderState.mk [{ schema := .enum [("A", .recurse 0)], api_state := .enum }]
      ).begin_enum_variant 0 "A").2.stack.map StackFrame.api_state ≠
      [ApiState.enum] := by
  have h : (CoderState.mk [{ schema := .enum [("A", .recurse 0)], api_state := .enum }]
      ).begin_enum_variant 0 "A" =
      (.error .invalidSchema,
        ⟨[{ schema := .enum [("A", .recurse 0)], api_state := .autoFinish }]⟩) := by
    simp [CoderState.begin_enum_variant, CoderState.push_need, resolveRecurse]
  rw [h]
  exact ⟨rfl, by simp⟩

/-- C5 amended: when `begin_enum_variant` fails at the ordinal or the name
validation, the coder state is unchanged; but when it fails while
resolving the variant's inner schema, the enclosing frame has already been
marked `AutoFinish` and is not rolled back (src has no `cancel_enum`). -/
theorem C5_enum_begin_no_rollback :
    ∀ (variants : List (String × Schema)) (rest : List StackFrame) (ord : Nat)
      (name : String),
      (variants.get? ord = none →
        (CoderState.mk ({ schema := .enum variants, api_state := .enum } :: rest)
          ).begin_enum_variant ord name =
          (.error .schemaNonConformance,
            ⟨{ schema := .enum variants, api_state := .enum } :: rest⟩)) ∧
      (∀ v, variants.get? ord = some v → v.1 ≠ name →
        (CoderState.mk ({ schema := .enum variants, api_state := .enum } :: rest)
          ).begin_enum_variant ord name =
          (.error .schemaNonConformance,
            ⟨{ schema := .enum variants, api_state := .enum } :: rest⟩)) ∧
      (∀ v e, variants.get? ord = some v → v.1 = name →
        (CoderState.mk ({ schema := .enum variants, api_state := .autoFinish } :: rest)
          ).push_need v.2 = .error e →
        (CoderState.mk ({ schema := .enum variants, api_state := .enum } :: rest)
          ).begin_enum_variant ord name =
          (.error e,
            ⟨{ schema := .enum variants, api_state := .autoFinish } :: rest⟩)) := by
  intro variants rest ord name
  refine ⟨?_, ?_, ?_⟩
  · intro hget
    rw [List.get?_eq_getElem?] at hget
    simp [CoderState.begin_enum_variant, hget]
  · intro v hget hne
    rw [List.get?_eq_getElem?] at hget
    have hne2 : ¬ name = v.1 := fun hh => hne hh.symm
    simp [CoderState.begin_enum_variant, hget, hne2]
  · intro v e hget hname hpush
    rw [List.get?_eq_getElem?] at hget
    simp [CoderState.begin_enum_variant, hget, hname.symm, hpush]

theorem C5_enum_begin_no_rollback_witness :
    ([("A", Schema.recurse 0)].get? 1 = none →
      (CoderState.mk [{ schema := .enum [("A", .recurse 0)], api_state := .enum }]
        ).begin_enum_variant 1 "B" =
        (.error .schemaNonConformance,
          ⟨[{ schema := .enum [("A", .recurse 0)], api_state := .enum }]⟩)) ∧
    ((CoderState.mk [{ schema := .enum [("A", .recurse 0)], api_state := .autoFinish }]
        ).push_need (.recurse 0) = .error .invalidSchema →
      (CoderState.mk [{ schema := .enum [("A", .recurse 0)], api_state := .enum }]
        ).begin_enum_variant 0 "A" =
        (.error .invalidSchema,
          ⟨[{ schema := .enum [("A", .recurse 0)], api_state := .autoFinish }]⟩)) := by
  constructor
  · exact fun _ =>
      (C5_enum_begin_no_rollback [("A", .recurse 0)] [] 1 "B").1 rfl
  · intro hp
    exact (C5_enum_begin_no_rollback [("A", .recurse 0)] [] 0 "A").2.2
      ("A", .recurse 0) .invalidSchema rfl rfl hp

/-- C4: beginning a sequence against a `Seq` schema with declared length
`l` succeeds exactly when the supplied length equals `l` (a mismatch is a
schema non-conformance error) and writes nothing; against a `Seq` schema
with no declared length it always succeeds and writes the supplied length
as a varint prefix. -/
theorem C4_begin_seq_fixed_vs_var :
    ∀ (l len : Nat) (inner : Schema) (rest : List EStackFrame) (w : List Nat),
      (applyEnc ⟨{ schema := .seq (some l) inner, api_state := .needEncode } :: rest, w⟩
          (.begin_seq len) =
        if l = len then
          (.ok (), ⟨{ schema := .seq (some l) inner, api_state := .seqInProg len 0 }
            :: rest, w⟩)
        else
          (.error .schemaNonConformance,
            ⟨{ schema := .seq (some l) inner, api_state := .needEncode } :: rest, w⟩)) ∧
      (applyEnc ⟨{ schema := .seq none inner, api_state := .needEncode } :: rest, w⟩
          (.begin_seq len) =
        (.ok (), ⟨{ schema := .seq none inner, api_state := .seqInProg len 0 } :: rest,
          w ++ write_var_len_uint len⟩)) := by
  intro l len inner rest w
  constructor
  · by_cases hl : l = len <;> simp [applyEnc, EncoderState.begin_seq, hl]
  · simp [applyEnc, EncoderState.begin_seq]

/-- C7: on a `Need` frame over an `Option` schema, `encode_none` writes
exactly the tag byte 0 and completes the option, and `begin_some` writes
exactly the tag byte 1 and pushes the inner schema above the auto-finish
frame; consequently under `option(str)`, none encodes to `0x00` and
some("hi") to `0x01 0x02 'h' 'i'`, both ending finished. -/
theorem C7_option_encoding :
    (∀ (inner : Schema) (rest : List EStackFrame) (w : List Nat),
      applyEnc ⟨{ schema := .option inner, api_state := .needEncode } :: rest, w⟩
          .encode_none =
        (.ok (), ⟨popAutoFinishE rest, w ++ [0]⟩)) ∧
    (∀ (inner : Schema) (rest : List EStackFrame) (w : List Nat),
      inner.isRecurse = false →
      applyEnc ⟨{ schema := .option inner, api_state := .needEncode } :: rest, w⟩
          .begin_some =
        (.ok (), ⟨{ schema := inner, api_state := .needEncode } ::
          { schema := .option inner, api_state := .autoFinishInProg } :: rest,
          w ++ [1]⟩)) ∧
    runEnc (EncoderState.new (.option .str)) [.encode_none] = (.ok (), ⟨[], [0]⟩) ∧
    runEnc (EncoderState.new (.option .str)) [.begin_some, .encode_str [104, 105]] =
      (.ok (), ⟨[], [1, 2, 104, 105]⟩) := by
  refine ⟨?_, ?_, ?_, ?_⟩
  · intro inner rest w
    simp [applyEnc, EncoderState.encode_none, EncoderState.pop]
  · intro inner rest w hnr
    have hres : resolveRecurse (Schema.option inner :: rest.map EStackFrame.schema)
        inner = .ok inner :=
      resolveRecurse_nonRecurse _ _ hnr
    simp [applyEnc, EncoderState.begin_some, EncoderState.push_need_encode, hres]
  · simp [runEnc, applyEnc, EncoderState.new, EncoderState.encode_none,
      EncoderState.pop, popAutoFinishE]
  · simp [runEnc, applyEnc, EncoderState.new, EncoderState.begin_some,
      EncoderState.push_need_encode, resolveRecurse, EncoderState.encode_simple,
      Schema.beq, EncoderState.pop, popAutoFinishE, write_var_len_uint]

theorem C7_option_encoding_witness :
    applyEnc ⟨[{ schema := .option .str, api_state := .needEncode }], []⟩ .begin_some =
      (.ok (), ⟨[{ schema := .str, api_state := .needEncode },
        { schema := .option .str, api_state := .autoFinishInProg }], [1]⟩) :=
  C7_option_encoding.2.1 .str [] [] rfl

theorem read_var_len_uint_go_write (n : Nat) (rest : List Nat) :
    ∀ (shift acc : Nat), acc + n * 2 ^ shift < 2 ^ 128 →
      read_var_len_uint_go (write_var_len_uint n ++ rest) shift acc =
        .ok (acc + n * 2 ^ shift, rest) := by
  induction n using write_var_len_uint.induct with
  | case1 n h =>
    intro shift acc hbound
    rw [write_var_len_uint, dif_pos h]
    norm_num at hbound
    simp [read_var_len_uint_go, Nat.mod_eq_of_lt h, h, hbound]
  | case2 n h ih =>
    intro shift acc hbound
    have hmod2 : (n % 128 + 128) % 128 = n % 128 := by omega
    have hb : ¬ (n % 128 + 128 < 128) := by omega
    have harith : acc + n % 128 * 2 ^ shift + n / 128 * 2 ^ (shift + 7) =
        acc + n * 2 ^ shift := by
      have h7 : (2 : Nat) ^ (shift + 7) = 2 ^ shift * 128 := by
        rw [pow_add]
        norm_num
      have hdm : n % 128 + 128 * (n / 128) = n := by omega
      calc acc + n % 128 * 2 ^ shift + n / 128 * 2 ^ (shift + 7)
          = acc + (n % 128 + 128 * (n / 128)) * 2 ^ shift := by rw [h7]; ring
        _ = acc + n * 2 ^ shift := by rw [hdm]
    rw [write_var_len_uint, dif_neg h]
    simp only [List.cons_append]
    rw [read_var_len_uint_go]
    simp only [hmod2, if_neg hb]
    rw [ih (shift + 7) (acc + n % 128 * 2 ^ shift) (by rw [harith]; exact hbound)]
    rw [harith]

theorem read_write_var_len_uint (n : Nat) (rest : List Nat) (h : n < 2 ^ 128) :
    read_var_len_uint (write_var_len_uint n ++ rest) = .ok (n, rest) := by
  have hgo := read_var_len_uint_go_write n rest 0 0 (by simpa using h)
  simpa [read_var_len_uint] using hgo

theorem read_len_write (n : Nat) (rest : List Nat) (h : n < 2 ^ 64) :
    read_len (write_var_len_uint n ++ rest) = .ok (n, rest) := by
  have h128 : n < 2 ^ 128 := lt_trans h (by norm_num)
  norm_num at h
  simp [read_len, read_write_var_len_uint n rest h128, h]

/-- C6: the decoder validates payload bytes against the schema position:
`decode_bool` maps byte 0 to false, byte 1 to true and anything else to an
error; `decode_char` errors whenever the 4-byte little-endian value is not
a valid Unicode scalar; `decode_str_into` errors whenever the
length-prefixed payload is not valid UTF-8. -/
theorem C6_decode_validation :
    (∀ (fs : List StackFrame) (input : List Nat) (b : Nat),
      DecoderState.decode_bool
          ⟨⟨{ schema := .scalar .bool, api_state := .need } :: fs⟩, b :: input⟩ =
        ((if b = 0 then .ok false else if b = 1 then .ok true
          else .error .malformedData),
         ⟨⟨popAutoFinish fs⟩, input⟩)) ∧
    (∀ (fs : List StackFrame) (input : List Nat) (b0 b1 b2 b3 : Nat),
      DecoderState.decode_char
          ⟨⟨{ schema := .scalar .char, api_state := .need } :: fs⟩,
            b0 :: b1 :: b2 :: b3 :: input⟩ =
        ((if validChar (b0 + 256 * b1 + 65536 * b2 + 16777216 * b3) then
            .ok (b0 + 256 * b1 + 65536 * b2 + 16777216 * b3)
          else .error .malformedData),
         ⟨⟨popAutoFinish fs⟩, input⟩)) ∧
    (∀ (fs : List StackFrame) (input payload buf : List Nat),
      payload.length < 2 ^ 64 →
      DecoderState.decode_str_into
          ⟨⟨{ schema := .str, api_state := .need } :: fs⟩,
            write_var_len_uint payload.length ++ payload ++ input⟩ buf =
        ((if utf8Valid payload then .ok () else .error .malformedData),
         ⟨⟨popAutoFinish fs⟩, input⟩,
         if utf8Valid payload then payload else [])) := by
  refine ⟨?_, ?_, ?_⟩
  · intro fs input b
    simp only [DecoderState.decode_bool, CoderState.code_simple, Schema.beq]
    simp [CoderState.pop]
    split <;> first | rfl | (split <;> rfl)
  · intro fs input b0 b1 b2 b3
    simp only [DecoderState.decode_char, CoderState.code_simple, Schema.beq]
    simp [CoderState.pop]
    split <;> rfl
  · intro fs input payload buf hlen
    have hr : read_len (write_var_len_uint payload.length ++ (payload ++ input)) =
        .ok (payload.length, payload ++ input) := read_len_write _ _ hlen
    have hnlt : ¬ (payload ++ input).length < payload.length := by
      simp [List.length_append]
    simp only [DecoderState.decode_str_into, CoderState.code_simple, Schema.beq,
      List.append_assoc, hr]
    simp [CoderState.pop, hnlt, List.take_left, List.drop_left]
    split <;> rfl

theorem C6_decode_validation_witness :
    DecoderState.decode_bool
        ⟨⟨[{ schema := .scalar .bool, api_state := .need }]⟩, [2]⟩ =
      (.error .malformedData, ⟨⟨[]⟩, []⟩) ∧
    DecoderState.decode_char
        ⟨⟨[{ schema := .scalar .char, api_state := .need }]⟩, [0, 0xD8, 0, 0]⟩ =
      (.error .malformedData, ⟨⟨[]⟩, []⟩) ∧
    DecoderState.decode_str_into
        ⟨⟨[{ schema := .str, api_state := .need }]⟩, [1, 0xFF]⟩ [] =
      (.error .malformedData, ⟨⟨[]⟩, []⟩, []) := by
  refine ⟨?_, ?_, ?_⟩
  · have h := C6_decode_validation.1 [] [] 2
    norm_num [popAutoFinish] at h
    exact h
  · have h := C6_decode_validation.2.1 [] [] 0 0xD8 0 0
    norm_num [popAutoFinish, validChar] at h
    exact h
  · have h := C6_decode_validation.2.2 [] [] [0xFF] [] (by norm_num)
    have hw : write_var_len_uint ([0xFF] : List Nat).length = [1] := by
      simp [write_var_len_uint]
    have hv : utf8Valid [0xFF] = false := by rfl
    rw [hw] at h
    simpa [popAutoFinish, hv] using h

/-- The two sequence-begin calls the serde adapter can issue on the
encoder (src/serde.rs `serialize_seq`). -/
inductive SeqBeginCall
  | begin_fixed_len_seq (len : Nat)
  | begin_var_len_seq (len : Nat)
deriving DecidableEq, Repr

/-- Modelled from the spec: the `need()` query of the final Encoder (its
definition is absent from src; src/serde.rs calls it) "inspects the schema
at the current top frame". -/
def EncoderState.need (st : EncoderState) : Except ErrKind Schema :=
  match st.stack with
  | [] => .error .apiUsage
  | top :: _ => .ok top.schema

/-- `serialize_seq` of `Serializer for &mut Encoder` (src/serde.rs): a
`None` length is refused (`Error::other`); the schema returned by `need()`
must be a `Seq` (else a schema non-conformance error); `is_fixed_len` is
whether its declared length is present, and selects
`begin_fixed_len_seq(len)` versus `begin_var_len_seq(len)`. -/
def serialize_seq (need : Schema) (len : Option Nat) : Except ErrKind SeqBeginCall :=
  match len with
  | none => .error .otherErr
  | some len =>
    match need with
    | .seq fixed_len _ =>
      if fixed_len.isSome then .ok (.begin_fixed_len_seq len)
      else .ok (.begin_var_len_seq len)
    | _ => .error .schemaNonConformance

/-- The calls the serde adapter issues while serializing one sequence:
the chosen begin call, then per element `begin_seq_elem` followed by the
element's own serialization (`SerializeSeq::serialize_element`), then
`finish_seq` (`SerializeSeq::end`), from src/serde.rs. -/
inductive SerdeSeqCall (α : Type)
  | begin (c : SeqBeginCall)
  | begin_seq_elem
  | serialize_element (v : α)
  | finish_seq
deriving DecidableEq, Repr

/-- The full call sequence for serializing the elements `elems` of a
sequence, assembled from `serialize_seq`, `serialize_element` and `end`
of src/serde.rs. -/
def serialize_seq_calls {α : Type} (need : Schema) (len : Option Nat)
    (elems : List α) : Except ErrKind (List (SerdeSeqCall α)) :=
  match serialize_seq need len with
  | .error e => .error e
  | .ok c =>
    .ok (.begin c :: elems.flatMap (fun v => [.begin_seq_elem, .serialize_element v])
      ++ [.finish_seq])

/-- C8: serializing a sequence inspects the schema at the current top
frame via `need()`; a `Seq` with a declared length selects
`begin_fixed_len_seq` with the sequence's length, any other `Seq` selects
`begin_var_len_seq`; every element is preceded by `begin_seq_elem` and the
sequence ends with `finish_seq`; a non-`Seq` schema yields a schema
non-conformance error. -/
theorem C8_serde_serialize_seq :
    (∀ (st : EncoderState) (top : EStackFrame) (rest : List EStackFrame),
      st.stack = top :: rest → st.need = .ok top.schema) ∧
    (∀ (fl : Option Nat) (inner : Schema) (len : Nat),
      serialize_seq (.seq fl inner) (some len) =
        .ok (if fl.isSome then .begin_fixed_len_seq len else .begin_var_len_seq len)) ∧
    (∀ (s : Schema) (len : Nat), (∀ fl inner, s ≠ .seq fl inner) →
      serialize_seq s (some len) = .error .schemaNonConformance) ∧
    (∀ (need : Schema) (len : Option Nat) (elems : List Nat)
      (calls : List (SerdeSeqCall Nat)),
      serialize_seq_calls need len elems = .ok calls →
      ∃ c, serialize_seq need len = .ok c ∧
        calls = .begin c ::
          elems.flatMap (fun v => [.begin_seq_elem, .serialize_element v])
          ++ [.finish_seq]) := by
  refine ⟨?_, ?_, ?_, ?_⟩
  · intro st top rest hst
    simp [EncoderState.need, hst]
  · intro fl inner len
    cases fl <;> simp [serialize_seq]
  · intro s len hne
    cases s <;> simp [serialize_seq]
    exact absurd rfl (hne _ _)
  · intro need len elems calls h
    cases hc : serialize_seq need len with
    | error e => simp [serialize_seq_calls, hc] at h
    | ok c =>
      simp only [serialize_seq_calls, hc] at h
      cases h
      exact ⟨c, rfl, rfl⟩

theorem C8_serde_serialize_seq_witness :
    EncoderState.need
        ⟨[{ schema := Schema.seq (some 2) (.scalar .f32), api_state := .needEncode }],
          []⟩ =
      .ok (.seq (some 2) (.scalar .f32)) ∧
    serialize_seq (.seq (some 2) (.scalar .f32)) (some 2) =
      .ok (.begin_fixed_len_seq 2) ∧
    serialize_seq (.seq none (.scalar .u32)) (some 3) = .ok (.begin_var_len_seq 3) ∧
    serialize_seq .str (some 3) = .error .schemaNonConformance ∧
    (∃ c, serialize_seq (.seq none (.scalar .u32)) (some 2) = .ok c ∧
      ([SerdeSeqCall.begin (.begin_var_len_seq 2), .begin_seq_elem,
        .serialize_element 1, .begin_seq_elem, .serialize_element 2, .finish_seq] :
          List (SerdeSeqCall Nat)) =
        .begin c :: ([1, 2] : List Nat).flatMap
          (fun v => [.begin_seq_elem, .serialize_element v]) ++ [.finish_seq]) := by
  refine ⟨?_, ?_, ?_, ?_, ?_⟩
  · exact C8_serde_serialize_seq.1 _
      { schema := .seq (some 2) (.scalar .f32), api_state := .needEncode } [] rfl
  · exact C8_serde_serialize_seq.2.1 (some 2) (.scalar .f32) 2
  · exact C8_serde_serialize_seq.2.1 none (.scalar .u32) 3
  · exact C8_serde_serialize_seq.2.2.1 .str 3 (by intro fl inner h; cases h)
  · exact C8_serde_serialize_seq.2.2.2 (.seq none (.scalar .u32)) (some 2) [1, 2]
      [.begin (.begin_var_len_seq 2), .begin_seq_elem, .serialize_element 1,
        .begin_seq_elem, .serialize_element 2, .finish_seq] rfl

/-- C1 fails on the code: under `option(str)` the encoder of
src/encoder_.rs encodes none to the byte `0x00` and finishes, but the
decode side cannot give the value back — `CoderState` of
src/coder/coder.rs has no option (or seq) transition at all (`code_none`,
`begin_some` and `begin_seq` are commented out), so every coder operation
fails on a `Need` frame over `option(str)` and every `Decoder` method,
which must first advance the coder, fails with it. -/
theorem C1_round_trip_gap :
    runEnc (EncoderState.new (.option .str)) [.encode_none] = (.ok (), ⟨[], [0]⟩) ∧
    (∀ op : CoderOp, resOk (applyCoder (CoderState.new (.option .str)) op).1 = false) ∧
    (∀ input buf : List Nat,
      resOk (DecoderState.decode_str_into ⟨CoderState.new (.option .str), input⟩
        buf).1 = false) := by
  refine ⟨?_, ?_, ?_⟩
  · simp [runEnc, applyEnc, EncoderState.new, EncoderState.encode_none,
      EncoderState.pop, popAutoFinishE]
  · intro op
    cases op with
    | code t => cases t <;> rfl
    | begin_tuple => rfl
    | begin_tuple_elem => rfl
    | finish_tuple => rfl
    | begin_struct => rfl
    | begin_struct_field name => rfl
    | finish_struct => rfl
    | begin_enum => rfl
    | begin_enum_variant ord name => rfl
  · intro input buf
    rfl

/-- C10: `decode_str_into` clears the caller's destination before doing
anything else — its result never depends on the incoming buffer — and on
every error path (coder error, length-prefix failure, payload read
failure, invalid UTF-8) the destination comes back empty. -/
theorem C10_decode_str_into_clears :
    (∀ (st : DecoderState) (buf : List Nat),
      st.decode_str_into buf = st.decode_str_into []) ∧
    (∀ (st : DecoderState) (buf : List Nat) (e : ErrKind) (st2 : DecoderState)
      (out : List Nat), st.decode_str_into buf = (.error e, st2, out) → out = []) := by
  constructor
  · intro st buf
    rfl
  · intro st buf e st2 out h
    unfold DecoderState.decode_str_into at h
    split at h
    · exact (congrArg (fun p => p.2.2) h).symm
    · split at h
      · exact (congrArg (fun p => p.2.2) h).symm
      · split at h
        · exact (congrArg (fun p => p.2.2) h).symm
        · split at h
          · simp at h
          · exact (congrArg (fun p => p.2.2) h).symm

theorem C10_decode_str_into_clears_witness :
    DecoderState.decode_str_into
        ⟨⟨[{ schema := .str, api_state := .need }]⟩, [1, 0xFF]⟩ [7] =
      (.error .malformedData, ⟨⟨[]⟩, []⟩, ([] : List Nat)) ∧ ([] : List Nat) = [] :=
  ⟨rfl, C10_decode_str_into_clears.2
    ⟨⟨[{ schema := .str, api_state := .need }]⟩, [1, 0xFF]⟩ [7] .malformedData
    ⟨⟨[]⟩, []⟩ [] rfl⟩

end Binschema
